import Mathlib

/-!
A shallow embedding of the `email` Go package (message rendering, the
content-transfer encoders, and the SMTP connection pool), together with
theorems checking the package's natural-language specification against it.

Byte strings are modelled as `List Nat` (each element a byte value < 256,
matching Go's byte-indexed strings and slices).
-/

set_option maxRecDepth 100000

namespace EmailSpec

/-- `MaxLineLength` is the maximum line length per RFC 2045 (from the source). -/
def MaxLineLength : Nat := 76

/-- `isPrintable` from the source: true for bytes in `'!'..'<'` (33..60),
`'>'..'~'` (62..126), or space (32), newline (10), tab (9). -/
def isPrintable (c : Nat) : Bool :=
  (33 ≤ c && c ≤ 60) || (62 ≤ c && c ≤ 126) || (c == 32 || c == 10 || c == 9)

/-- Indexing into the string `"0123456789ABCDEF"` of the source's `qpEscape`:
digit values 0..9 map to `'0' + n` and 10..15 map to `'A' + (n - 10)`. -/
def hexDigit (n : Nat) : Nat := if n < 10 then 48 + n else 55 + n

/-- `qpEscape` from the source: a non-printable byte `c` becomes the 3-byte
token `=XX` with `X` the uppercase hex digits of `c` (`(c & 0xf0) >> 4` is the
high nibble and `c & 0xf` the low nibble; for a byte value these are
`c % 256 / 16` and `c % 16`). `61` is `'='`. -/
def qpEscape (c : Nat) : List Nat :=
  [61, hexDigit (c % 256 / 16), hexDigit (c % 16)]

/-- The token the quoted-printable encoder emits for one input byte other than
a line feed: the byte itself when printable, else its `qpEscape`. -/
def qpToken (c : Nat) : List Nat := if isPrintable c then [c] else qpEscape c

/-- `quotePrintEncode` from the source, with the mutable column counter `mc`
made an explicit argument (the exported encoder starts it at 0):
a line feed byte (10) is written as CRLF (13, 10) and resets `mc`; otherwise
the token for the byte is computed, a soft line break `=\r\n` (61, 13, 10) is
first written when `mc + token length >= MaxLineLength`, and after the whole
input a trailing soft break is written when `mc > 0`. -/
def quotePrintEncode : List Nat → Nat → List Nat
  | [], mc => if 0 < mc then [61, 13, 10] else []
  | c :: rest, mc =>
    if c == 10 then 13 :: 10 :: quotePrintEncode rest 0
    else
      let nextOut := qpToken c
      if MaxLineLength ≤ mc + nextOut.length then
        61 :: 13 :: 10 :: (nextOut ++ quotePrintEncode rest nextOut.length)
      else
        nextOut ++ quotePrintEncode rest (mc + nextOut.length)

/-- The column counter the encoder is left with after consuming the input
(mirrors the updates of `mc` in `quotePrintEncode`). -/
def qpFinalCol : List Nat → Nat → Nat
  | [], mc => mc
  | c :: rest, mc =>
    if c == 10 then qpFinalCol rest 0
    else
      let nextOut := qpToken c
      if MaxLineLength ≤ mc + nextOut.length then qpFinalCol rest nextOut.length
      else qpFinalCol rest (mc + nextOut.length)

/-- `quotePrintEncode` without its trailing-soft-break step, used to state
exactly what that final step adds. -/
def qpEncodeNoTrail : List Nat → Nat → List Nat
  | [], _ => []
  | c :: rest, mc =>
    if c == 10 then 13 :: 10 :: qpEncodeNoTrail rest 0
    else
      let nextOut := qpToken c
      if MaxLineLength ≤ mc + nextOut.length then
        61 :: 13 :: 10 :: (nextOut ++ qpEncodeNoTrail rest nextOut.length)
      else
        nextOut ++ qpEncodeNoTrail rest (mc + nextOut.length)

/-- Lengths of the lines of a byte string, splitting at each CRLF (13, 10)
pair; `cur` is the length already accumulated on the current line. -/
def lineLengths : List Nat → Nat → List Nat
  | [], cur => [cur]
  | c :: rest, cur =>
    if c = 13 ∧ rest.head? = some 10 then cur :: lineLengths rest.tail 0
    else lineLengths rest (cur + 1)
termination_by l _ => l.length
decreasing_by
  all_goals simp only [List.length_tail, List.length_cons]
  all_goals omega

lemma hexDigit_ge (n : Nat) : 48 ≤ hexDigit n := by
  unfold hexDigit; split <;> omega

lemma qpToken_length_pos (c : Nat) : 0 < (qpToken c).length := by
  unfold qpToken qpEscape; split <;> simp

lemma qpToken_length_le (c : Nat) : (qpToken c).length ≤ 3 := by
  unfold qpToken qpEscape; split <;> simp

lemma qpToken_no_crlf (c : Nat) (hc : c ≠ 10) :
    ∀ x ∈ qpToken c, x ≠ 13 ∧ x ≠ 10 := by
  intro x hx
  unfold qpToken at hx
  split at hx
  · next hp =>
    simp at hx
    subst hx
    refine ⟨?_, hc⟩
    rintro rfl
    simp [isPrintable] at hp
  · unfold qpEscape at hx
    simp at hx
    rcases hx with h | h | h
    · omega
    · have := hexDigit_ge (c % 256 / 16); omega
    · have := hexDigit_ge (c % 16); omega

lemma lineLengths_append (t : List Nat) (rest : List Nat) (cur : Nat)
    (h : ∀ x ∈ t, x ≠ 13 ∧ x ≠ 10) :
    lineLengths (t ++ rest) cur = lineLengths rest (cur + t.length) := by
  induction t generalizing cur with
  | nil => simp
  | cons a t ih =>
    have ha := h a (by simp)
    have hrec := ih (cur + 1) (fun x hx => h x (by simp [hx]))
    simp only [List.cons_append, lineLengths, ha.1, false_and, if_false]
    rw [hrec, List.length_cons]
    congr 1
    omega

lemma lineLengths_crlf (rest : List Nat) (cur : Nat) :
    lineLengths (13 :: 10 :: rest) cur = cur :: lineLengths rest 0 := by
  simp [lineLengths]

lemma quotePrintEncode_lines_bound (s : List Nat) :
    ∀ mc, mc ≤ 75 → ∀ l ∈ lineLengths (quotePrintEncode s mc) mc, l ≤ 76 := by
  induction s with
  | nil =>
    intro mc hmc l hl
    by_cases h : 0 < mc
    · rw [show quotePrintEncode [] mc = [61, 13, 10] by simp [quotePrintEncode, h]] at hl
      rw [show lineLengths [61, 13, 10] mc = [mc + 1, 0] by simp [lineLengths]] at hl
      simp at hl
      rcases hl with rfl | rfl <;> omega
    · rw [show quotePrintEncode [] mc = [] by simp [quotePrintEncode, h]] at hl
      simp [lineLengths] at hl
      omega
  | cons c rest ih =>
    intro mc hmc l hl
    by_cases hc : c = 10
    · subst hc
      rw [show quotePrintEncode (10 :: rest) mc = 13 :: 10 :: quotePrintEncode rest 0 by
            simp [quotePrintEncode]] at hl
      rw [lineLengths_crlf] at hl
      simp only [List.mem_cons] at hl
      rcases hl with rfl | hl
      · omega
      · exact ih 0 (by omega) l hl
    · have htok := qpToken_no_crlf c hc
      have hlen1 := qpToken_length_pos c
      have hlen3 := qpToken_length_le c
      by_cases h76 : MaxLineLength ≤ mc + (qpToken c).length
      · rw [show quotePrintEncode (c :: rest) mc
              = 61 :: 13 :: 10 :: (qpToken c ++ quotePrintEncode rest (qpToken c).length) by
            simp [quotePrintEncode, hc, h76]] at hl
        rw [show lineLengths
              (61 :: 13 :: 10 :: (qpToken c ++ quotePrintEncode rest (qpToken c).length)) mc
              = (mc + 1) :: lineLengths
                  (qpToken c ++ quotePrintEncode rest (qpToken c).length) 0 by
            simp [lineLengths]] at hl
        rw [lineLengths_append _ _ _ htok] at hl
        simp only [List.mem_cons, Nat.zero_add] at hl
        rcases hl with rfl | hl
        · omega
        · exact ih (qpToken c).length (by omega) l hl
      · rw [show quotePrintEncode (c :: rest) mc
              = qpToken c ++ quotePrintEncode rest (mc + (qpToken c).length) by
            simp [quotePrintEncode, hc, h76]] at hl
        rw [lineLengths_append _ _ _ htok] at hl
        have hle : mc + (qpToken c).length ≤ 75 := by
          unfold MaxLineLength at h76; omega
        exact ih _ hle l hl

lemma qp_trail_split : ∀ (s : List Nat) (mc : Nat),
    quotePrintEncode s mc =
      qpEncodeNoTrail s mc ++ (if 0 < qpFinalCol s mc then [61, 13, 10] else []) := by
  intro s
  induction s with
  | nil =>
    intro mc
    by_cases h : 0 < mc <;> simp [quotePrintEncode, qpEncodeNoTrail, qpFinalCol, h]
  | cons c rest ih =>
    intro mc
    by_cases hc : c = 10
    · subst hc
      simp [quotePrintEncode, qpEncodeNoTrail, qpFinalCol, ih 0]
    · by_cases h76 : MaxLineLength ≤ mc + (qpToken c).length <;>
        simp [quotePrintEncode, qpEncodeNoTrail, qpFinalCol, hc, h76, ih]

lemma qp_ends_crlf : ∀ (s : List Nat) (mc : Nat), s ≠ [] →
    ∃ pre, quotePrintEncode s mc = pre ++ [13, 10] := by
  intro s
  induction s with
  | nil => intro mc h; exact absurd rfl h
  | cons c rest ih =>
    intro mc _
    by_cases hc : c = 10
    · by_cases hr : rest = []
      · subst hc; subst hr
        exact ⟨[], by simp [quotePrintEncode]⟩
      · obtain ⟨pre, hp⟩ := ih 0 hr
        subst hc
        exact ⟨13 :: 10 :: pre, by simp [quotePrintEncode, hp]⟩
    · have hpos := qpToken_length_pos c
      have tail_ends : ∀ mc2, 0 < mc2 →
          ∃ pre, quotePrintEncode rest mc2 = pre ++ [13, 10] := by
        intro mc2 h2
        by_cases hr : rest = []
        · subst hr
          exact ⟨[61], by simp [quotePrintEncode, h2]⟩
        · exact ih mc2 hr
      by_cases h76 : MaxLineLength ≤ mc + (qpToken c).length
      · obtain ⟨pre, hp⟩ := tail_ends (qpToken c).length hpos
        exact ⟨61 :: 13 :: 10 :: (qpToken c ++ pre), by
          simp [quotePrintEncode, hc, h76, hp]⟩
      · obtain ⟨pre, hp⟩ := tail_ends (mc + (qpToken c).length) (by omega)
        exact ⟨qpToken c ++ pre, by simp [quotePrintEncode, hc, h76, hp]⟩

lemma qpFinalCol_pos_of_last_not_lf : ∀ (pre : List Nat) (c : Nat) (mc : Nat), c ≠ 10 →
    0 < qpFinalCol (pre ++ [c]) mc := by
  intro pre
  induction pre with
  | nil =>
    intro c mc hc
    have hpos := qpToken_length_pos c
    by_cases h76 : MaxLineLength ≤ mc + (qpToken c).length <;>
      simp [qpFinalCol, hc, h76] <;> omega
  | cons a pre ih =>
    intro c mc hc
    by_cases ha : a = 10
    · subst ha
      simpa [qpFinalCol] using ih c 0 hc
    · by_cases h76 : MaxLineLength ≤ mc + (qpToken a).length
      · simpa [qpFinalCol, ha, h76] using ih c (qpToken a).length hc
      · simpa [qpFinalCol, ha, h76] using ih c (mc + (qpToken a).length) hc

/-- C5: for every input, the quoted-printable encoder emits a soft line break
`=\r\n` (61, 13, 10) and resets the column counter immediately before emitting
any token (literal byte or 3-byte escape) whose length added to the current
column is at least `MaxLineLength` = 76; the token itself is then emitted
contiguously (never split by the break), and consequently no line of the
encoded output exceeds 76 columns. -/
theorem qp_soft_break_policy :
    (∀ (c : Nat) (rest : List Nat) (mc : Nat), c ≠ 10 →
      quotePrintEncode (c :: rest) mc =
        (if MaxLineLength ≤ mc + (qpToken c).length then [61, 13, 10] else [])
          ++ qpToken c
          ++ quotePrintEncode rest
              (if MaxLineLength ≤ mc + (qpToken c).length then (qpToken c).length
               else mc + (qpToken c).length)) ∧
    (∀ s : List Nat, ∀ l ∈ lineLengths (quotePrintEncode s 0) 0, l ≤ 76) := by
  constructor
  · intro c rest mc hc
    by_cases h76 : MaxLineLength ≤ mc + (qpToken c).length <;>
      simp [quotePrintEncode, hc, h76]
  · intro s l hl
    exact quotePrintEncode_lines_bound s 0 (by omega) l hl

/-- Witness for C5 at a concrete input: at column 74 the printable byte `'a'`
(97) still fits (74 + 1 < 76), so it is emitted with no soft break before
it, and the trailing soft break follows. -/
theorem qp_soft_break_policy_witness :
    quotePrintEncode [97] 74 =
      (if MaxLineLength ≤ 74 + (qpToken 97).length then [61, 13, 10] else [])
        ++ qpToken 97
        ++ quotePrintEncode []
            (if MaxLineLength ≤ 74 + (qpToken 97).length then (qpToken 97).length
             else 74 + (qpToken 97).length) :=
  qp_soft_break_policy.1 97 [] 74 (by decide)

/-- C6: per-byte behaviour of the quoted-printable encoder: a literal line
feed is emitted as CRLF and resets the column to 0; printable bytes
(`'!'..'<'`, `'>'..'~'`, space, tab) are copied literally; every other byte,
`'='` (61) included, becomes the 3-byte token `=XX` with `X` uppercase hex
digits (codes 48..57 and 65..70), so `'='` becomes `=3D` (61, 51, 68) and each
byte of the UTF-8 fish U+1F41F (240, 159, 144, 159) is escaped individually. -/
theorem qp_byte_classification :
    (∀ (rest : List Nat) (mc : Nat),
      quotePrintEncode (10 :: rest) mc = 13 :: 10 :: quotePrintEncode rest 0) ∧
    (∀ c : Nat, isPrintable c = true → qpToken c = [c]) ∧
    (∀ c : Nat, c < 256 → isPrintable c = false →
      qpToken c = [61, hexDigit (c / 16), hexDigit (c % 16)] ∧
      (48 ≤ hexDigit (c / 16) ∧ hexDigit (c / 16) ≤ 57 ∨
        65 ≤ hexDigit (c / 16) ∧ hexDigit (c / 16) ≤ 70) ∧
      (48 ≤ hexDigit (c % 16) ∧ hexDigit (c % 16) ≤ 57 ∨
        65 ≤ hexDigit (c % 16) ∧ hexDigit (c % 16) ≤ 70)) ∧
    qpToken 61 = [61, 51, 68] ∧
    quotePrintEncode [240, 159, 144, 159] 0 =
      [61, 70, 48, 61, 57, 70, 61, 57, 48, 61, 57, 70, 61, 13, 10] := by
  refine ⟨?_, ?_, ?_, by decide, by decide⟩
  · intro rest mc
    simp [quotePrintEncode]
  · intro c hp
    simp [qpToken, hp]
  · intro c hlt hp
    have h16 : c / 16 < 16 := by omega
    refine ⟨?_, ?_, ?_⟩
    · simp [qpToken, qpEscape, hp, Nat.mod_eq_of_lt hlt]
    · unfold hexDigit; split <;> omega
    · have : c % 16 < 16 := Nat.mod_lt _ (by omega)
      unfold hexDigit; split <;> omega

/-- Witness for C6 at a concrete input: the bell byte 7 is not printable and
escapes to `=07`. -/
theorem qp_byte_classification_witness :
    qpToken 7 = [61, hexDigit (7 / 16), hexDigit (7 % 16)] ∧
    (48 ≤ hexDigit (7 / 16) ∧ hexDigit (7 / 16) ≤ 57 ∨
      65 ≤ hexDigit (7 / 16) ∧ hexDigit (7 / 16) ≤ 70) ∧
    (48 ≤ hexDigit (7 % 16) ∧ hexDigit (7 % 16) ≤ 57 ∨
      65 ≤ hexDigit (7 % 16) ∧ hexDigit (7 % 16) ≤ 70) :=
  qp_byte_classification.2.2.1 7 (by decide) (by decide)

/-- C7: `quotePrintEncode` appends a trailing soft break `=\r\n` after the
last token exactly when the final column counter is nonzero; the final column
is nonzero for every input ending in a byte other than line feed, and every
encoding of a nonempty input ends with CRLF (a hard break or the trailing
soft break). -/
theorem qp_trailing_soft_break :
    (∀ (s : List Nat) (mc : Nat),
      quotePrintEncode s mc =
        qpEncodeNoTrail s mc ++ (if 0 < qpFinalCol s mc then [61, 13, 10] else [])) ∧
    (∀ (pre : List Nat) (c : Nat) (mc : Nat), c ≠ 10 → 0 < qpFinalCol (pre ++ [c]) mc) ∧
    (∀ (s : List Nat) (mc : Nat), s ≠ [] →
      ∃ pre, quotePrintEncode s mc = pre ++ [13, 10]) :=
  ⟨qp_trail_split, qpFinalCol_pos_of_last_not_lf, qp_ends_crlf⟩

/-- Witness for C7 at a concrete input: `"A"` (65, not a line feed) leaves a
positive final column and its encoding ends in CRLF. -/
theorem qp_trailing_soft_break_witness :
    0 < qpFinalCol ([] ++ [65]) 0 ∧
    ∃ pre, quotePrintEncode [65] 0 = pre ++ [13, 10] :=
  ⟨qp_trailing_soft_break.2.1 [] 65 0 (by decide),
   qp_trailing_soft_break.2.2 [65] 0 (by decide)⟩

/-- One character of the standard base64 alphabet
(`A..Z`, `a..z`, `0..9`, `+`, `/`) as used by `base64.StdEncoding`. -/
def b64Char (n : Nat) : Nat :=
  if n < 26 then 65 + n
  else if n < 52 then 97 + (n - 26)
  else if n < 62 then 48 + (n - 52)
  else if n = 62 then 43
  else 47

/-- Standard padded base64 of a byte string (`base64.StdEncoding.Encode`):
three input bytes become four alphabet characters; a trailing group of one or
two bytes is padded with `'='` (61). -/
def encodeB64 : List Nat → List Nat
  | [] => []
  | [a] => [b64Char (a % 256 / 4), b64Char (a % 4 * 16), 61, 61]
  | [a, b] =>
    [b64Char (a % 256 / 4), b64Char (a % 4 * 16 + b % 256 / 16), b64Char (b % 16 * 4), 61]
  | a :: b :: c :: rest =>
    b64Char (a % 256 / 4) :: b64Char (a % 4 * 16 + b % 256 / 16) ::
      b64Char (b % 16 * 4 + c % 256 / 64) :: b64Char (c % 64) :: encodeB64 rest

/-- `base64Wrap` from the source: encode 57-byte chunks to full 76-character
lines terminated by CRLF while at least 57 bytes remain (`maxRaw = 57`), then
encode and CRLF-terminate the final nonempty remainder. -/
def base64Wrap (b : List Nat) : List Nat :=
  if 57 ≤ b.length then
    encodeB64 (b.take 57) ++ [13, 10] ++ base64Wrap (b.drop 57)
  else if 0 < b.length then encodeB64 b ++ [13, 10]
  else []
termination_by b.length
decreasing_by
  simp only [List.length_drop]
  omega

/-- The lines `base64Wrap` produces, without their CRLF terminators. -/
def base64Lines (b : List Nat) : List (List Nat) :=
  if 57 ≤ b.length then encodeB64 (b.take 57) :: base64Lines (b.drop 57)
  else if 0 < b.length then [encodeB64 b]
  else []
termination_by b.length
decreasing_by
  simp only [List.length_drop]
  omega

lemma encodeB64_length : ∀ b : List Nat, (encodeB64 b).length = 4 * ((b.length + 2) / 3)
  | [] => by simp [encodeB64]
  | [_] => by simp [encodeB64]
  | [_, _] => by simp [encodeB64]
  | _ :: _ :: _ :: rest => by
    simp [encodeB64, encodeB64_length rest]
    omega

lemma encodeB64_append : ∀ xs ys : List Nat, 3 ∣ xs.length →
    encodeB64 (xs ++ ys) = encodeB64 xs ++ encodeB64 ys
  | [], _, _ => by simp [encodeB64]
  | [_], _, h => by simp at h
  | [_, _], _, h => by
    simp only [List.length_cons, List.length_nil] at h
    omega
  | a :: b :: c :: rest, ys, h => by
    have h3 : 3 ∣ rest.length := by
      simp only [List.length_cons] at h
      omega
    simp [encodeB64, encodeB64_append rest ys h3]

lemma base64Wrap_step (b : List Nat) (h : 57 ≤ b.length) :
    base64Wrap b = encodeB64 (b.take 57) ++ [13, 10] ++ base64Wrap (b.drop 57) := by
  rw [base64Wrap]
  simp [h]

lemma base64Wrap_last (b : List Nat) (h : b.length < 57) (h0 : 0 < b.length) :
    base64Wrap b = encodeB64 b ++ [13, 10] := by
  rw [base64Wrap]
  simp [h0]
  omega

lemma base64Wrap_eq_join : ∀ (n : Nat) (b : List Nat), b.length ≤ n →
    base64Wrap b = ((base64Lines b).map (fun l => l ++ [13, 10])).flatten
  | 0, b, hle => by
    have hb : b = [] := List.length_eq_zero.mp (by omega)
    subst hb
    rw [base64Wrap, base64Lines]
    simp
  | n + 1, b, hle => by
    rw [base64Wrap, base64Lines]
    by_cases h1 : 57 ≤ b.length
    · have hrec := base64Wrap_eq_join n (b.drop 57) (by simp; omega)
      simp [h1, hrec]
    · by_cases h2 : 0 < b.length <;> simp [h1, h2]

lemma base64Lines_join : ∀ (n : Nat) (b : List Nat), b.length ≤ n →
    (base64Lines b).flatten = encodeB64 b
  | 0, b, hle => by
    have hb : b = [] := List.length_eq_zero.mp (by omega)
    subst hb
    rw [base64Lines]
    simp [encodeB64]
  | n + 1, b, hle => by
    rw [base64Lines]
    by_cases h1 : 57 ≤ b.length
    · have hrec := base64Lines_join n (b.drop 57) (by simp; omega)
      have hsplit : encodeB64 (b.take 57 ++ b.drop 57) =
          encodeB64 (b.take 57) ++ encodeB64 (b.drop 57) := by
        apply encodeB64_append
        simp [List.length_take]
        omega
      rw [List.take_append_drop] at hsplit
      simp [h1, hrec, hsplit]
    · by_cases h2 : 0 < b.length
      · simp [h1, h2]
      · have hb : b = [] := List.length_eq_zero.mp (by omega)
        subst hb
        simp [encodeB64]

lemma base64Lines_bound : ∀ (n : Nat) (b : List Nat), b.length ≤ n →
    ∀ l ∈ base64Lines b, l.length ≤ 76
  | 0, b, hle => by
    have hb : b = [] := List.length_eq_zero.mp (by omega)
    subst hb
    rw [base64Lines]
    simp
  | n + 1, b, hle => by
    intro l hl
    rw [base64Lines] at hl
    by_cases h1 : 57 ≤ b.length
    · rw [if_pos h1] at hl
      simp only [List.mem_cons] at hl
      rcases hl with rfl | hl
      · rw [encodeB64_length]
        simp only [List.length_take]
        omega
      · exact base64Lines_bound n (b.drop 57) (by simp; omega) l hl
    · rw [if_neg h1] at hl
      by_cases h2 : 0 < b.length
      · rw [if_pos h2] at hl
        simp only [List.mem_singleton] at hl
        subst hl
        rw [encodeB64_length]
        omega
      · rw [if_neg h2] at hl
        simp at hl
/-- The test input of `Test_base64Wrap` (the ASCII bytes of the string
`"I'm a file long enough ..."` with LF line breaks); its length is 154. -/
def b64TestInput : List Nat := [
  73, 39, 109, 32, 97, 32, 102, 105, 108, 101, 32, 108, 111, 110, 103, 32, 101, 110,
  111, 117, 103, 104, 32, 116, 111, 32, 102, 111, 114, 99, 101, 32, 116, 104, 101, 32,
  102, 117, 110, 99, 116, 105, 111, 110, 32, 116, 111, 32, 119, 114, 97, 112, 32, 97,
  10, 99, 111, 117, 112, 108, 101, 32, 111, 102, 32, 108, 105, 110, 101, 115, 44, 32,
  98, 117, 116, 32, 73, 32, 115, 116, 111, 112, 32, 115, 104, 111, 114, 116, 32, 111,
  102, 32, 116, 104, 101, 32, 101, 110, 100, 32, 111, 102, 32, 111, 110, 101, 32, 108,
  105, 110, 101, 32, 97, 110, 100, 10, 104, 97, 118, 101, 32, 115, 111, 109, 101, 32,
  112, 97, 100, 100, 105, 110, 103, 32, 100, 97, 110, 103, 108, 105, 110, 103, 32, 97,
  116, 32, 116, 104, 101, 32, 101, 110, 100, 46]

/-- The expected wrapped encoding from `Test_base64Wrap`: three
CRLF-terminated lines, the first two 76 characters wide. -/
def b64TestExpected : List Nat := [
  83, 83, 100, 116, 73, 71, 69, 103, 90, 109, 108, 115, 90, 83, 66, 115, 98, 50,
  53, 110, 73, 71, 86, 117, 98, 51, 86, 110, 97, 67, 66, 48, 98, 121, 66, 109,
  98, 51, 74, 106, 90, 83, 66, 48, 97, 71, 85, 103, 90, 110, 86, 117, 89, 51,
  82, 112, 98, 50, 52, 103, 100, 71, 56, 103, 100, 51, 74, 104, 99, 67, 66, 104,
  67, 109, 78, 118, 13, 10, 100, 88, 66, 115, 90, 83, 66, 118, 90, 105, 66, 115,
  97, 87, 53, 108, 99, 121, 119, 103, 89, 110, 86, 48, 73, 69, 107, 103, 99, 51,
  82, 118, 99, 67, 66, 122, 97, 71, 57, 121, 100, 67, 66, 118, 90, 105, 66, 48,
  97, 71, 85, 103, 90, 87, 53, 107, 73, 71, 57, 109, 73, 71, 57, 117, 90, 83,
  66, 115, 97, 87, 53, 108, 73, 71, 70, 117, 13, 10, 90, 65, 112, 111, 89, 88,
  90, 108, 73, 72, 78, 118, 98, 87, 85, 103, 99, 71, 70, 107, 90, 71, 108, 117,
  90, 121, 66, 107, 89, 87, 53, 110, 98, 71, 108, 117, 90, 121, 66, 104, 100, 67,
  66, 48, 97, 71, 85, 103, 90, 87, 53, 107, 76, 103, 61, 61, 13, 10]

lemma base64Lines_step (b : List Nat) (h : 57 ≤ b.length) :
    base64Lines b = encodeB64 (b.take 57) :: base64Lines (b.drop 57) := by
  rw [base64Lines]
  simp [h]

lemma base64Lines_last (b : List Nat) (h : b.length < 57) (h0 : 0 < b.length) :
    base64Lines b = [encodeB64 b] := by
  rw [base64Lines]
  simp [h0]
  omega

lemma b64_lines_concrete :
    base64Lines b64TestInput =
      [encodeB64 (b64TestInput.take 57),
       encodeB64 ((b64TestInput.drop 57).take 57),
       encodeB64 ((b64TestInput.drop 57).drop 57)] := by
  rw [base64Lines_step b64TestInput (by decide),
      base64Lines_step (b64TestInput.drop 57) (by decide),
      base64Lines_last ((b64TestInput.drop 57).drop 57) (by decide) (by decide)]

/-- C8 (amended): for every byte sequence, `base64Wrap` writes the standard
padded base64 encoding of the input split into lines of at most 76
characters, every line — the final, shorter one included — terminated by
CRLF; on the 154-byte ASCII input of `Test_base64Wrap` it produces exactly
three CRLF-terminated lines whose first two are 76 characters long before
the CRLF. -/
theorem base64Wrap_spec :
    (∀ b : List Nat,
      base64Wrap b = ((base64Lines b).map (fun l => l ++ [13, 10])).flatten ∧
      (base64Lines b).flatten = encodeB64 b ∧
      ∀ l ∈ base64Lines b, l.length ≤ 76) ∧
    (base64Lines b64TestInput).map List.length = [76, 76, 56] ∧
    base64Wrap b64TestInput = b64TestExpected ∧
    b64TestInput.length = 154 := by
  refine ⟨fun b => ⟨base64Wrap_eq_join b.length b le_rfl,
                    base64Lines_join b.length b le_rfl,
                    base64Lines_bound b.length b le_rfl⟩, ?_, ?_, by decide⟩
  · rw [b64_lines_concrete]
    decide
  · rw [base64Wrap_step b64TestInput (by decide),
        base64Wrap_step (b64TestInput.drop 57) (by decide),
        base64Wrap_last ((b64TestInput.drop 57).drop 57) (by decide) (by decide)]
    decide

/-- Witness for C8 at a concrete input: the single line of `base64Lines [65]`
is within the 76-character limit. -/
theorem base64Wrap_spec_witness : (encodeB64 [65]).length ≤ 76 :=
  (base64Wrap_spec.1 [65]).2.2 (encodeB64 [65])
    (by rw [base64Lines_last [65] (by decide) (by decide)]; simp)

/-- C8 counterexample: the test input the spec calls "the 151-byte ASCII
input" is in fact 154 bytes long. -/
theorem b64TestInput_not_151 :
    b64TestInput.length = 154 ∧ b64TestInput.length ≠ 151 := by
  decide

/-- A byte of a valid MIME header field name (printable ASCII, no colon), as
`textproto.CanonicalMIMEHeaderKey` checks before canonicalizing. -/
def validHeaderFieldChar (c : Char) : Bool :=
  33 ≤ c.toNat && c.toNat ≤ 126 && c.toNat ≠ 58

/-- Character-level canonicalization of `textproto.CanonicalMIMEHeaderKey`:
uppercase the first letter and every letter after a hyphen (45), lowercase
the rest. -/
def canonChars : List Char → Bool → List Char
  | [], _ => []
  | c :: rest, upper =>
    let c2 := if upper && 97 ≤ c.toNat && c.toNat ≤ 122 then Char.ofNat (c.toNat - 32)
              else if !upper && 65 ≤ c.toNat && c.toNat ≤ 90 then Char.ofNat (c.toNat + 32)
              else c
    c2 :: canonChars rest (c2.toNat == 45)

/-- `textproto.CanonicalMIMEHeaderKey`: keys with an invalid byte are
returned unchanged, otherwise they are canonicalized word by word. -/
def canonicalMIMEHeaderKey (s : String) : String :=
  if s.data.all validHeaderFieldChar then String.mk (canonChars s.data true)
  else s

/-- `textproto.MIMEHeader`, modelled as an association list with at most one
entry per (canonical) key; Go's map iteration order is immaterial because a
rendered header block is kept as one structured token (see `Chunk.header`). -/
abbrev MIMEHeader := List (String × List String)

/-- `MIMEHeader.Set`: replace the entry for the canonical key by the single
given value. -/
def hdrSet (h : MIMEHeader) (key value : String) : MIMEHeader :=
  let ck := canonicalMIMEHeaderKey key
  (h.filter (fun kv => kv.1 != ck)) ++ [(ck, [value])]

/-- `MIMEHeader.Get`: first value stored under the canonical key, or `""`. -/
def hdrGet (h : MIMEHeader) (key : String) : String :=
  match h.find? (fun kv => kv.1 == canonicalMIMEHeaderKey key) with
  | some kv => kv.2.headD ""
  | none => ""

/-- Whether a header map contains an entry stored under exactly this key. -/
def hdrHasKey (h : MIMEHeader) (key : String) : Bool :=
  h.any (fun kv => kv.1 == key)

/-- `strings.Join` with a separator. -/
def goJoin : List String → String → String
  | [], _ => ""
  | [s], _ => s
  | s :: rest, sep => s ++ sep ++ goJoin rest sep

/-- `Attachment` from the source: filename, MIME header, content bytes. -/
structure Attachment where
  Filename : String
  Header : MIMEHeader
  Content : List Nat
deriving DecidableEq

/-- `Email` from the source. `Text` and `HTML` are Go strings consumed
byte-by-byte by the encoder, so they are byte lists here; a nil `Cc` slice is
modelled as the empty list. -/
structure Email where
  From : String
  To : List String
  Bcc : List String
  Cc : List String
  Subject : String
  Text : List Nat
  HTML : List Nat
  Headers : MIMEHeader
  Attachments : List Attachment
  ReadReceipt : List String
deriving DecidableEq

/-- `Attach` from the source: the `io.Reader` is modelled by the result of
reading it to the end (`Except.error` when `io.Copy` fails). On success the
attachment's header carries the supplied Content-Type (or
`application/octet-stream` when that is empty), a `Content-Disposition`
of `attachment` with the filename, and `Content-Transfer-Encoding: base64`,
and the attachment is appended to the message's attachment list. -/
def Attach (e : Email) (r : Except String (List Nat)) (filename c : String) :
    Except String (Email × Attachment) :=
  match r with
  | .error err => .error err
  | .ok content =>
    let h1 := hdrSet [] "Content-Type" (if c ≠ "" then c else "application/octet-stream")
    let h2 := hdrSet h1 "Content-Disposition"
                ("attachment;\r\n filename=\"" ++ filename ++ "\"")
    let h3 := hdrSet h2 "Content-Transfer-Encoding" "base64"
    let a := Attachment.mk filename h3 content
    .ok ({ e with Attachments := e.Attachments ++ [a] }, a)

/-- The envelope headers `Bytes` sets before rendering (overwriting any
conflicts, Bcc deliberately left out); `b1` is the boundary of the top-level
`multipart.Writer`. -/
def topHeaders (e : Email) (b1 : String) : MIMEHeader :=
  let h0 := e.Headers
  let h1 := hdrSet h0 "To" (goJoin e.To ",")
  let h2 := if e.Cc ≠ [] then hdrSet h1 "Cc" (goJoin e.Cc ",") else h1
  let h3 := hdrSet h2 "From" e.From
  let h4 := hdrSet h3 "Subject" e.Subject
  let h5 := if e.ReadReceipt ≠ [] then
              hdrSet h4 "Disposition-Notification-To" (goJoin e.ReadReceipt ",")
            else h4
  let h6 := hdrSet h5 "MIME-Version" "1.0"
  hdrSet h6 "Content-Type" ("multipart/mixed;\r\n boundary=" ++ b1 ++ "\r\n")

/-- The top-level Content-Type of the rendered message. -/
def topContentType (e : Email) (b1 : String) : String :=
  hdrGet (topHeaders e b1) "Content-Type"

/-- The header of the `multipart/alternative` sub-part (the fresh
`header` map after its first `Set` in `Bytes`); `b2` is the sub-writer's
boundary. -/
def altHeader (b2 : String) : MIMEHeader :=
  hdrSet [] "Content-Type" ("multipart/alternative;\r\n boundary=" ++ b2 ++ "\r\n")

/-- The text part's header: `Bytes` mutates the same `header` map again. -/
def textPartHeader (b2 : String) : MIMEHeader :=
  hdrSet (hdrSet (altHeader b2) "Content-Type" "text/plain; charset=UTF-8")
    "Content-Transfer-Encoding" "quoted-printable"

/-- The HTML part's header: again the same map, mutated after the text part
when a text body exists. -/
def htmlPartHeader (e : Email) (b2 : String) : MIMEHeader :=
  let base := if e.Text ≠ [] then textPartHeader b2 else altHeader b2
  hdrSet (hdrSet base "Content-Type" "text/html; charset=UTF-8")
    "Content-Transfer-Encoding" "quoted-printable"

/-- One token of the rendered output: a header block (whose internal line
order follows Go's map iteration and is abstracted to the structured map) or
literal bytes. -/
inductive Chunk where
  | header (h : MIMEHeader)
  | raw (bs : List Nat)
deriving DecidableEq

/-- ASCII bytes of a string (boundaries and header scaffolding are ASCII). -/
def strBytes (s : String) : List Nat := s.data.map Char.toNat

/-- The attachment parts written by the outer `multipart.Writer`: each
`CreatePart` writes the boundary line (with a leading CRLF except for the
writer's first part), the attachment's header block, a blank line, and then
the `base64Wrap`ped content. -/
def attachmentChunks : List Attachment → String → Bool → List Chunk
  | [], _, _ => []
  | a :: rest, b1, first =>
    Chunk.raw (strBytes (if first then "--" ++ b1 ++ "\r\n"
                         else "\r\n--" ++ b1 ++ "\r\n")) ::
    Chunk.header a.Header :: Chunk.raw (strBytes "\r\n") ::
    Chunk.raw (base64Wrap a.Content) ::
    attachmentChunks rest b1 false

/-- `Bytes` from the source as the ordered stream of chunks it writes:
envelope headers; the opening `--b1` line; when a Text or HTML body exists,
the `multipart/alternative` header followed by the body sub-parts written
through the sub-writer and its closing `--b2--` line; then one part per
attachment; and the closing `--b1--` line. Boundaries `b1`, `b2` are the
randomly generated writer boundaries, passed explicitly. -/
def emailBytes (e : Email) (b1 b2 : String) : List Chunk :=
  [Chunk.header (topHeaders e b1), Chunk.raw (strBytes ("--" ++ b1 ++ "\r\n"))]
  ++ (if e.Text ≠ [] ∨ e.HTML ≠ [] then
        [Chunk.header (altHeader b2)]
        ++ (if e.Text ≠ [] then
              [Chunk.raw (strBytes ("--" ++ b2 ++ "\r\n")),
               Chunk.header (textPartHeader b2),
               Chunk.raw (strBytes "\r\n"),
               Chunk.raw (quotePrintEncode e.Text 0)]
            else [])
        ++ (if e.HTML ≠ [] then
              [Chunk.raw (strBytes (if e.Text ≠ [] then "\r\n--" ++ b2 ++ "\r\n"
                                    else "--" ++ b2 ++ "\r\n")),
               Chunk.header (htmlPartHeader e b2),
               Chunk.raw (strBytes "\r\n"),
               Chunk.raw (quotePrintEncode e.HTML 0)]
            else [])
        ++ [Chunk.raw (strBytes ("\r\n--" ++ b2 ++ "--\r\n"))]
      else [])
  ++ attachmentChunks e.Attachments b1 true
  ++ [Chunk.raw (strBytes ("\r\n--" ++ b1 ++ "--\r\n"))]


lemma find?_set_same (h : MIMEHeader) (ck w : String) :
    (h.filter (fun kv => kv.1 != ck) ++ [(ck, [w])]).find?
        (fun kv => kv.1 == ck) = some (ck, [w]) := by
  induction h with
  | nil => simp [List.find?]
  | cons kv rest ih =>
    by_cases hk : kv.1 = ck
    · rw [List.filter_cons_of_neg (by simp [hk])]
      exact ih
    · rw [List.filter_cons_of_pos (by simp [hk]), List.cons_append,
          List.find?_cons_of_neg _ (by simp [hk])]
      exact ih

lemma find?_set_other (h : MIMEHeader) (ck w k2 : String) (hne : ck ≠ k2) :
    (h.filter (fun kv => kv.1 != ck) ++ [(ck, [w])]).find?
        (fun kv => kv.1 == k2) = h.find? (fun kv => kv.1 == k2) := by
  induction h with
  | nil =>
    have hf : (ck == k2) = false := by simp [hne]
    simp [List.find?, hf]
  | cons kv rest ih =>
    by_cases hk : kv.1 = ck
    · rw [List.filter_cons_of_neg (by simp [hk]), ih,
          List.find?_cons_of_neg _ (by simp [hk, hne])]
    · by_cases hk2 : kv.1 = k2
      · rw [List.filter_cons_of_pos (by simp [hk]), List.cons_append,
            List.find?_cons_of_pos _ (by simp [hk2]), List.find?_cons_of_pos _ (by simp [hk2])]
      · rw [List.filter_cons_of_pos (by simp [hk]), List.cons_append,
            List.find?_cons_of_neg _ (by simp [hk2]), List.find?_cons_of_neg _ (by simp [hk2]),
            ih]

lemma any_set_other (h : MIMEHeader) (ck w k2 : String) (hne : ck ≠ k2) :
    (h.filter (fun kv => kv.1 != ck) ++ [(ck, [w])]).any (fun kv => kv.1 == k2)
      = h.any (fun kv => kv.1 == k2) := by
  induction h with
  | nil => simp [hne]
  | cons kv rest ih =>
    by_cases hk : kv.1 = ck
    · rw [List.filter_cons_of_neg (by simp [hk]), ih, List.any_cons]
      have hf : (kv.1 == k2) = false := by simp [hk, hne]
      simp [hf]
    · rw [List.filter_cons_of_pos (by simp [hk]), List.cons_append,
          List.any_cons, List.any_cons, ih]

lemma hdrGet_hdrSet (h : MIMEHeader) (k v : String) :
    hdrGet (hdrSet h k v) k = v := by
  simp only [hdrGet, hdrSet]
  rw [find?_set_same]
  rfl

lemma hdrGet_hdrSet_ne (h : MIMEHeader) (k v k2 : String)
    (hne : canonicalMIMEHeaderKey k ≠ canonicalMIMEHeaderKey k2) :
    hdrGet (hdrSet h k v) k2 = hdrGet h k2 := by
  simp only [hdrGet, hdrSet]
  rw [find?_set_other _ _ _ _ hne]

lemma hdrHasKey_hdrSet_ne (h : MIMEHeader) (k v k2 : String)
    (hne : canonicalMIMEHeaderKey k ≠ k2) :
    hdrHasKey (hdrSet h k v) k2 = hdrHasKey h k2 := by
  simp only [hdrHasKey, hdrSet]
  rw [any_set_other _ _ _ _ hne]

/-- A Text-only message with no attachments: the concrete instance
exercising C1. -/
def textOnlyEmail : Email :=
  Email.mk "jd@example.com" ["to@example.com"] [] [] "Hi"
    (strBytes "hello") [] [] [] []

/-- An attachment and a message with Text, HTML and that one regular
attachment, the fourth shape of C1. -/
def demoAttachment : Attachment :=
  Attachment.mk "rad.txt" (hdrSet [] "Content-Type" "text/plain") (strBytes "Rad attachment")

def textHtmlAttEmail : Email :=
  Email.mk "jd@example.com" ["to@example.com"] [] [] "Hi"
    (strBytes "text body") (strBytes "html body") [] [demoAttachment] []

/-- C1 counterexample: a message with only Text and no attachments does not
render a non-multipart `text/plain` top level; `Bytes` always sets the
top-level Content-Type to `multipart/mixed`. -/
theorem textOnly_renders_multipart_mixed :
    topContentType textOnlyEmail "B1" = "multipart/mixed;\r\n boundary=B1\r\n" ∧
    (∃ rest, topContentType textOnlyEmail "B1" = "multipart/mixed" ++ rest) ∧
    ¬ ∃ rest, topContentType textOnlyEmail "B1" = "text/plain" ++ rest := by
  refine ⟨hdrGet_hdrSet _ _ _, ⟨";\r\n boundary=B1\r\n", ?_⟩, ?_⟩
  · rw [show topContentType textOnlyEmail "B1"
        = "multipart/mixed;\r\n boundary=B1\r\n" from hdrGet_hdrSet _ _ _]
    rfl
  · rintro ⟨rest, h⟩
    rw [show topContentType textOnlyEmail "B1"
        = "multipart/mixed;\r\n boundary=B1\r\n" from hdrGet_hdrSet _ _ _] at h
    have h2 := congrArg String.data h
    simp [String.data_append] at h2

/-- C1 (amended): the top-level Content-Type rendered by `Bytes` is always
`multipart/mixed` (with the writer's boundary), for every body/attachment
shape; whenever a Text or HTML body is present — whatever the attachment
count — the first part inside the mixed wrapper is the
`multipart/alternative` part; and for a message with Text, HTML and one
attachment the rendered stream is the mixed wrapper containing that
`multipart/alternative` part (text part then HTML part) followed by the one
attachment part. -/
theorem bytes_top_level_structure :
    (∀ (e : Email) (b1 : String),
      topContentType e b1 = "multipart/mixed;\r\n boundary=" ++ b1 ++ "\r\n") ∧
    (∀ (e : Email) (b1 b2 : String), e.Text ≠ [] ∨ e.HTML ≠ [] →
      ∃ rest, emailBytes e b1 b2 =
          Chunk.header (topHeaders e b1) ::
          Chunk.raw (strBytes ("--" ++ b1 ++ "\r\n")) ::
          Chunk.header (altHeader b2) :: rest) ∧
    (∀ b2 : String, hdrGet (altHeader b2) "Content-Type"
        = "multipart/alternative;\r\n boundary=" ++ b2 ++ "\r\n") ∧
    (∀ (e : Email) (b1 b2 : String) (a : Attachment),
      e.Text ≠ [] → e.HTML ≠ [] → e.Attachments = [a] →
      emailBytes e b1 b2 =
        [Chunk.header (topHeaders e b1),
         Chunk.raw (strBytes ("--" ++ b1 ++ "\r\n")),
         Chunk.header (altHeader b2),
         Chunk.raw (strBytes ("--" ++ b2 ++ "\r\n")),
         Chunk.header (textPartHeader b2),
         Chunk.raw (strBytes "\r\n"),
         Chunk.raw (quotePrintEncode e.Text 0),
         Chunk.raw (strBytes ("\r\n--" ++ b2 ++ "\r\n")),
         Chunk.header (htmlPartHeader e b2),
         Chunk.raw (strBytes "\r\n"),
         Chunk.raw (quotePrintEncode e.HTML 0),
         Chunk.raw (strBytes ("\r\n--" ++ b2 ++ "--\r\n")),
         Chunk.raw (strBytes ("--" ++ b1 ++ "\r\n")),
         Chunk.header a.Header,
         Chunk.raw (strBytes "\r\n"),
         Chunk.raw (base64Wrap a.Content),
         Chunk.raw (strBytes ("\r\n--" ++ b1 ++ "--\r\n"))] ∧
      hdrGet (altHeader b2) "Content-Type"
        = "multipart/alternative;\r\n boundary=" ++ b2 ++ "\r\n") := by
  refine ⟨?_, ?_, ?_, ?_⟩
  · intro e b1
    unfold topContentType topHeaders
    exact hdrGet_hdrSet _ _ _
  · intro e b1 b2 h
    simp only [emailBytes, if_pos h]
    exact ⟨_, rfl⟩
  · intro b2
    exact hdrGet_hdrSet _ _ _
  · intro e b1 b2 a hT hH hA
    constructor
    · simp [emailBytes, attachmentChunks, hA, hT, hH]
    · exact hdrGet_hdrSet _ _ _

/-- Witness for C1 at concrete messages: the Text-only message's stream
begins with the `multipart/alternative` part, and the Text+HTML+attachment
message renders the full mixed structure. -/
theorem bytes_top_level_structure_witness :
    (∃ rest, emailBytes textOnlyEmail "B1" "B2" =
        Chunk.header (topHeaders textOnlyEmail "B1") ::
        Chunk.raw (strBytes ("--" ++ "B1" ++ "\r\n")) ::
        Chunk.header (altHeader "B2") :: rest) ∧
    emailBytes textHtmlAttEmail "B1" "B2" =
      [Chunk.header (topHeaders textHtmlAttEmail "B1"),
       Chunk.raw (strBytes ("--" ++ "B1" ++ "\r\n")),
       Chunk.header (altHeader "B2"),
       Chunk.raw (strBytes ("--" ++ "B2" ++ "\r\n")),
       Chunk.header (textPartHeader "B2"),
       Chunk.raw (strBytes "\r\n"),
       Chunk.raw (quotePrintEncode textHtmlAttEmail.Text 0),
       Chunk.raw (strBytes ("\r\n--" ++ "B2" ++ "\r\n")),
       Chunk.header (htmlPartHeader textHtmlAttEmail "B2"),
       Chunk.raw (strBytes "\r\n"),
       Chunk.raw (quotePrintEncode textHtmlAttEmail.HTML 0),
       Chunk.raw (strBytes ("\r\n--" ++ "B2" ++ "--\r\n")),
       Chunk.raw (strBytes ("--" ++ "B1" ++ "\r\n")),
       Chunk.header demoAttachment.Header,
       Chunk.raw (strBytes "\r\n"),
       Chunk.raw (base64Wrap demoAttachment.Content),
       Chunk.raw (strBytes ("\r\n--" ++ "B1" ++ "--\r\n"))] ∧
    hdrGet (altHeader "B2") "Content-Type"
      = "multipart/alternative;\r\n boundary=" ++ "B2" ++ "\r\n" :=
  ⟨bytes_top_level_structure.2.1 textOnlyEmail "B1" "B2" (Or.inl (by decide)),
   bytes_top_level_structure.2.2.2 textHtmlAttEmail "B1" "B2" demoAttachment
     (by decide) (by decide) rfl⟩

/-- C10: attaching a byte source that reads without error appends a new
attachment and succeeds; its Content-Type header is the supplied string, or
`application/octet-stream` when that is empty, its Content-Disposition is
`attachment` carrying the filename, and its Content-Transfer-Encoding is
`base64`. -/
theorem attach_spec (e : Email) (content : List Nat) (filename c : String) :
    ∃ a e2, Attach e (.ok content) filename c = .ok (e2, a) ∧
      e2.Attachments = e.Attachments ++ [a] ∧
      hdrGet a.Header "Content-Type"
        = (if c ≠ "" then c else "application/octet-stream") ∧
      hdrGet a.Header "Content-Disposition"
        = "attachment;\r\n filename=\"" ++ filename ++ "\"" ∧
      hdrGet a.Header "Content-Transfer-Encoding" = "base64" ∧
      a.Filename = filename ∧ a.Content = content := by
  refine ⟨_, _, rfl, rfl, ?_, ?_, ?_, rfl, rfl⟩
  · rw [hdrGet_hdrSet_ne _ _ _ _ (by decide), hdrGet_hdrSet_ne _ _ _ _ (by decide),
        hdrGet_hdrSet]
  · rw [hdrGet_hdrSet_ne _ _ _ _ (by decide), hdrGet_hdrSet]
  · rw [hdrGet_hdrSet]

/-- The result of the consumed address-parsing capability
(`mail.ParseAddress`): a display name and a bare address. -/
structure Addr where
  Name : String
  Address : String
deriving DecidableEq

/-- `emailOnly` from the pool source: parse the full spec and keep only the
bare address; the parsing itself is the consumed capability `pa`. -/
def emailOnly (pa : String → Except String Addr) (full : String) :
    Except String String :=
  match pa full with
  | .error e => .error e
  | .ok addr => .ok addr.Address

/-- Inner loop of `addressLists`: map `emailOnly` over one list, stopping at
the first parse error. -/
def addrList1 (pa : String → Except String Addr) : List String → Except String (List String)
  | [] => .ok []
  | s :: rest =>
    match emailOnly pa s with
    | .error e => .error e
    | .ok a =>
      match addrList1 pa rest with
      | .error e => .error e
      | .ok as => .ok (a :: as)

/-- `addressLists` from the pool source: concatenate the address-only forms
of the given lists in order, stopping at the first parse error. -/
def addressLists (pa : String → Except String Addr) : List (List String) → Except String (List String)
  | [] => .ok []
  | lst :: rest =>
    match addrList1 pa lst with
    | .error e => .error e
    | .ok as =>
      match addressLists pa rest with
      | .error e => .error e
      | .ok bs => .ok (as ++ bs)

/-- The bare address `pa` yields for a string (used only to state results on
inputs known to parse). -/
def addrOf (pa : String → Except String Addr) (s : String) : String :=
  match pa s with
  | .ok a => a.Address
  | .error _ => ""

/-- The Go error values the pool's `shouldReuse` distinguishes by dynamic
type: an SMTP error response over an intact connection
(`*textproto.Error`), a protocol-level breakage (`textproto.ProtocolError`),
a raw OS error (`syscall.Errno`), and anything else (parse errors from
`mail.ParseAddress` included). -/
inductive GoError where
  | textprotoError (code : Nat) (msg : String)
  | protocolError (msg : String)
  | errno (n : Nat)
  | otherError (msg : String)
deriving DecidableEq

/-- `shouldReuse` from the pool source: only a `*textproto.Error` leaves the
connection reusable; protocol errors, errnos and unrecognized errors do not. -/
def shouldReuse : GoError → Bool
  | .textprotoError _ _ => true
  | .protocolError _ => false
  | .errno _ => false
  | .otherError _ => false

/-- What the deferred block of `Pool.Send` does with the connection once the
attempt finishes: reset the session and requeue it, discard it (`p.dec()`,
which frees a capacity slot and signals `decs`, then `Quit`/`Close`), or
requeue it untouched. -/
inductive PoolAction where
  | resetAndReplace
  | discard
  | replace
deriving DecidableEq

/-- The deferred reuse decision of `Pool.Send`, as a function of the returned
error. -/
def sendFinalize : Option GoError → PoolAction
  | some e => if shouldReuse e then .resetAndReplace else .discard
  | none => .replace

/-- Responses of the transport capability (the `*smtp.Client`) to each step
of the envelope exchange; `none` means success. -/
structure Transport where
  mailRes : String → Option GoError
  rcptRes : String → Option GoError
  dataRes : Option GoError
  writeRes : Option GoError
  closeRes : Option GoError

/-- A transport whose every exchange step succeeds. -/
def okTransport : Transport :=
  Transport.mk (fun _ => none) (fun _ => none) none none none

/-- The envelope-exchange steps `Pool.Send` drives on an acquired connection. -/
inductive TransportEvent where
  | mail (sender : String)
  | rcpt (recipient : String)
  | dataCmd
  | write
deriving DecidableEq

/-- The recipient loop of `Pool.Send`: declare each recipient in order until
one is rejected. -/
def rcptLoop (tr : Transport) : List String → Option GoError × List TransportEvent
  | [] => (none, [])
  | r :: rest =>
    match tr.rcptRes r with
    | some e => (some e, [.rcpt r])
    | none =>
      let p := rcptLoop tr rest
      (p.1, .rcpt r :: p.2)

/-- The body of `Pool.Send` after a connection is acquired, returning the
error it ends with and the transport exchange steps actually performed:
parse the recipient lists (To, then Cc, then Bcc), render the message
(writing to an in-memory buffer, which cannot fail), parse the sender, then
drive MAIL, each RCPT, DATA, the body write and the data-writer close. A
parse failure is a plain error (not a `*textproto.Error`), returned before
any exchange step. -/
def poolSendExchange (pa : String → Except String Addr) (tr : Transport) (e : Email) :
    Option GoError × List TransportEvent :=
  match addressLists pa [e.To, e.Cc, e.Bcc] with
  | .error m => (some (.otherError m), [])
  | .ok recipients =>
    match emailOnly pa e.From with
    | .error m => (some (.otherError m), [])
    | .ok sender =>
      match tr.mailRes sender with
      | some er => (some er, [.mail sender])
      | none =>
        let p := rcptLoop tr recipients
        match p.1 with
        | some er => (some er, .mail sender :: p.2)
        | none =>
          match tr.dataRes with
          | some er => (some er, .mail sender :: p.2 ++ [.dataCmd])
          | none =>
            match tr.writeRes with
            | some er => (some er, .mail sender :: p.2 ++ [.dataCmd, .write])
            | none => (tr.closeRes, .mail sender :: p.2 ++ [.dataCmd, .write])

/-- `Pool.Send` paired with the reuse decision its deferred block takes. -/
def poolSend (pa : String → Except String Addr) (tr : Transport) (e : Email) :
    (Option GoError × List TransportEvent) × PoolAction :=
  let p := poolSendExchange pa tr e
  (p, sendFinalize p.1)

/-- One call to `smtp.SendMail` (the entire transport exchange of the plain
`Email.Send`): server address, envelope sender, raw recipient list. -/
inductive SendMailEvent where
  | sendMail (addr : String) (sender : String) (rcpts : List String)
deriving DecidableEq

/-- `Email.Send` from `email.go`: merge To, Cc and Bcc (left unparsed),
require a From and at least one recipient, parse the From address only,
render the message (cannot fail in-memory), and call `smtp.SendMail`;
`smtpRes` is that call's result. Returns the error and the `smtp.SendMail`
calls performed. -/
def emailSend (pa : String → Except String Addr) (smtpRes : Option String)
    (e : Email) (addr : String) : Option String × List SendMailEvent :=
  let tos := e.To ++ e.Cc ++ e.Bcc
  if e.From = "" ∨ tos = [] then
    (some "Must specify at least one From address and one To address", [])
  else
    match pa e.From with
    | .error m => (some m, [])
    | .ok sender => (smtpRes, [.sendMail addr sender.Address tos])

/-- The shared pool state: the capacity `max`, the `created` counter, and the
connections counted by where they are (being built by an asynchronous task,
queued in the ready channel, held by a `Send` caller). -/
structure PoolState where
  max : Nat
  created : Nat
  building : Nat
  avail : Nat
  inUse : Nat
deriving DecidableEq

/-- `inc` from the pool source: the double-checked, mutex-protected
increment; it reserves a capacity slot only while `created` is still below
`max`, returning whether it did. -/
def inc (p : PoolState) : Bool × PoolState :=
  if p.created ≥ p.max then (false, p)
  else (true, { p with created := p.created + 1 })

/-- `dec` from the pool source: give a capacity slot back (and signal a
waiter through the `decs` channel). -/
def dec (p : PoolState) : PoolState := { p with created := p.created - 1 }

/-- Atomic transitions of the pool, at the granularity of its
mutex-protected counter updates and channel operations: `startBuild` is
`makeOne` passing `inc` and launching a build task; `buildOk` is a build
task queueing its connection in the ready channel; `buildFail` is a failed
build calling `dec`; `take` hands a queued connection to a caller;
`requeue` is `replace` after a send; `drop` is the discard path of the
deferred block (`dec`, then `Quit` and `Close`). -/
inductive PoolStep : PoolState → PoolState → Prop where
  | startBuild (p : PoolState) : (inc p).1 = true →
      PoolStep p { (inc p).2 with building := (inc p).2.building + 1 }
  | buildOk (p : PoolState) : 0 < p.building →
      PoolStep p { p with building := p.building - 1, avail := p.avail + 1 }
  | buildFail (p : PoolState) : 0 < p.building →
      PoolStep p (dec { p with building := p.building - 1 })
  | take (p : PoolState) : 0 < p.avail →
      PoolStep p { p with avail := p.avail - 1, inUse := p.inUse + 1 }
  | requeue (p : PoolState) : 0 < p.inUse →
      PoolStep p { p with inUse := p.inUse - 1, avail := p.avail + 1 }
  | drop (p : PoolState) : 0 < p.inUse →
      PoolStep p (dec { p with inUse := p.inUse - 1 })

/-- The pool states reachable from a fresh pool of capacity `n` (`NewPool`:
`created = 0`, nothing queued, nothing handed out). -/
inductive PoolReachable (n : Nat) : PoolState → Prop where
  | init : PoolReachable n (PoolState.mk n 0 0 0 0)
  | step (p q : PoolState) : PoolReachable n p → PoolStep p q → PoolReachable n q

/-- C2: `inc` raises `created` only when it is still below capacity, `dec`
lowers it, and in every reachable state of a pool of capacity `n` the
created count equals the connections being built, queued or in use, never
exceeding `n`; in particular in-use plus queued-as-available connections
never exceed `n`. -/
theorem pool_capacity_invariant :
    (∀ p : PoolState,
      ((inc p).1 = true ↔ p.created < p.max) ∧
      (inc p).2.created = (if p.created < p.max then p.created + 1 else p.created) ∧
      (dec p).created = p.created - 1) ∧
    (∀ (n : Nat) (p : PoolState), PoolReachable n p →
      p.max = n ∧ p.created = p.building + p.avail + p.inUse ∧
      p.created ≤ n ∧ p.avail + p.inUse ≤ n) := by
  constructor
  · intro p
    refine ⟨?_, ?_, rfl⟩
    · unfold inc
      by_cases h : p.created ≥ p.max
      · rw [if_pos h]
        simp
        omega
      · rw [if_neg h]
        simp
        omega
    · unfold inc
      by_cases h : p.created ≥ p.max
      · rw [if_pos h, if_neg (by omega)]
      · rw [if_neg h, if_pos (by omega)]
  · intro n p hr
    induction hr with
    | init => simp
    | step p q hp hs ih =>
      obtain ⟨ih1, ih2, ih3, ih4⟩ := ih
      cases hs with
      | startBuild h =>
        by_cases hge : p.created ≥ p.max
        · rw [show inc p = (false, p) from by simp [inc, hge]] at h
          simp at h
        · rw [show inc p = (true, { p with created := p.created + 1 }) from by
              simp [inc, hge]] at h ⊢
          refine ⟨ih1, ?_, ?_, ?_⟩ <;> simp <;> omega
      | buildOk h =>
        refine ⟨ih1, ?_, ?_, ?_⟩ <;> simp <;> omega
      | buildFail h =>
        refine ⟨ih1, ?_, ?_, ?_⟩ <;> simp [dec] <;> omega
      | take h =>
        refine ⟨ih1, ?_, ?_, ?_⟩ <;> simp <;> omega
      | requeue h =>
        refine ⟨ih1, ?_, ?_, ?_⟩ <;> simp <;> omega
      | drop h =>
        refine ⟨ih1, ?_, ?_, ?_⟩ <;> simp [dec] <;> omega

/-- Witness for C2 at a concrete reachable state: capacity 1 after one
successful `inc` with a build in progress. -/
theorem pool_capacity_invariant_witness :
    (PoolState.mk 1 1 1 0 0).max = 1 ∧
    (PoolState.mk 1 1 1 0 0).created
      = (PoolState.mk 1 1 1 0 0).building + (PoolState.mk 1 1 1 0 0).avail
        + (PoolState.mk 1 1 1 0 0).inUse ∧
    (PoolState.mk 1 1 1 0 0).created ≤ 1 ∧
    (PoolState.mk 1 1 1 0 0).avail + (PoolState.mk 1 1 1 0 0).inUse ≤ 1 :=
  pool_capacity_invariant.2 1 (PoolState.mk 1 1 1 0 0)
    (PoolReachable.step _ _ PoolReachable.init (PoolStep.startBuild _ (by decide)))

/-- C3: after a pooled `Send`, the connection is reset and returned to the
ready queue exactly when the attempt's error is a `*textproto.Error` (an
SMTP error response over an intact transport); for every other error the
deferred block discards the connection (`dec`, freeing the slot and
signalling, then `Quit`/`Close`); with no error the connection is requeued
without a reset. -/
theorem send_reuse_policy :
    (∀ err : GoError,
      (sendFinalize (some err) = PoolAction.resetAndReplace ↔ shouldReuse err = true) ∧
      (sendFinalize (some err) = PoolAction.discard ↔ shouldReuse err = false) ∧
      (shouldReuse err = true ↔ ∃ code msg, err = GoError.textprotoError code msg)) ∧
    sendFinalize none = PoolAction.replace ∧
    (∀ pa tr e, (poolSend pa tr e).2 = sendFinalize (poolSendExchange pa tr e).1) := by
  refine ⟨?_, rfl, fun pa tr e => rfl⟩
  intro err
  refine ⟨?_, ?_, ?_⟩
  · cases err <;> simp [sendFinalize, shouldReuse]
  · cases err <;> simp [sendFinalize, shouldReuse]
  · cases err <;> simp [shouldReuse]

/-- Witness for C3 at a concrete error: a 550 SMTP response is a
`*textproto.Error`, so the connection is reset and requeued. -/
theorem send_reuse_policy_witness :
    (sendFinalize (some (GoError.textprotoError 550 "mailbox unavailable"))
        = PoolAction.resetAndReplace
      ↔ shouldReuse (GoError.textprotoError 550 "mailbox unavailable") = true) ∧
    (sendFinalize (some (GoError.textprotoError 550 "mailbox unavailable"))
        = PoolAction.discard
      ↔ shouldReuse (GoError.textprotoError 550 "mailbox unavailable") = false) ∧
    (shouldReuse (GoError.textprotoError 550 "mailbox unavailable") = true
      ↔ ∃ code msg, GoError.textprotoError 550 "mailbox unavailable"
          = GoError.textprotoError code msg) :=
  send_reuse_policy.1 (GoError.textprotoError 550 "mailbox unavailable")

lemma addrList1_ok (pa : String → Except String Addr) :
    ∀ l : List String, (∀ s ∈ l, ∃ a, pa s = .ok a) →
      addrList1 pa l = .ok (l.map (addrOf pa))
  | [], _ => rfl
  | s :: rest, h => by
    obtain ⟨a, ha⟩ := h s (by simp)
    have hrec := addrList1_ok pa rest (fun x hx => h x (by simp [hx]))
    simp [addrList1, emailOnly, addrOf, ha, hrec]

lemma rcptLoop_ok (l : List String) :
    rcptLoop okTransport l = (none, l.map TransportEvent.rcpt) := by
  induction l with
  | nil => rfl
  | cons r rest ih =>
    have hr : okTransport.rcptRes r = none := rfl
    simp [rcptLoop, hr, ih]

lemma hdrHasKey_ite_set (cond : Prop) [Decidable cond] (h : MIMEHeader)
    (k v k2 : String) (hne : canonicalMIMEHeaderKey k ≠ k2) :
    hdrHasKey (if cond then hdrSet h k v else h) k2 = hdrHasKey h k2 := by
  split
  · exact hdrHasKey_hdrSet_ne _ _ _ _ hne
  · rfl

lemma topHeaders_no_bcc (e : Email) (b1 : String)
    (h : hdrHasKey e.Headers "Bcc" = false) :
    hdrHasKey (topHeaders e b1) "Bcc" = false := by
  simp only [topHeaders]
  rw [hdrHasKey_hdrSet_ne _ _ _ _ (by decide),
      hdrHasKey_hdrSet_ne _ _ _ _ (by decide),
      hdrHasKey_ite_set _ _ _ _ _ (by decide),
      hdrHasKey_hdrSet_ne _ _ _ _ (by decide),
      hdrHasKey_hdrSet_ne _ _ _ _ (by decide),
      hdrHasKey_ite_set _ _ _ _ _ (by decide),
      hdrHasKey_hdrSet_ne _ _ _ _ (by decide),
      h]

/-- C4: the rendered output of `Bytes` does not depend on the Bcc field at
all and adds no Bcc header (whenever the caller-supplied custom headers do
not already carry one); and the envelope recipients are the To, Cc and Bcc
entries in declared order, reduced to bare addresses, which the pooled
`Send` declares to the transport one `RCPT` each, in order. -/
theorem bcc_excluded_and_envelope_order :
    (∀ (e : Email) (b1 b2 : String) (x : List String),
      emailBytes { e with Bcc := x } b1 b2 = emailBytes e b1 b2) ∧
    (∀ (e : Email) (b1 : String), hdrHasKey e.Headers "Bcc" = false →
      hdrHasKey (topHeaders e b1) "Bcc" = false) ∧
    (∀ (pa : String → Except String Addr) (e : Email),
      (∀ s ∈ e.To ++ e.Cc ++ e.Bcc, ∃ a, pa s = .ok a) →
      addressLists pa [e.To, e.Cc, e.Bcc]
        = .ok ((e.To ++ e.Cc ++ e.Bcc).map (addrOf pa))) ∧
    (∀ (pa : String → Except String Addr) (e : Email)
        (recips : List String) (sender : String),
      addressLists pa [e.To, e.Cc, e.Bcc] = .ok recips →
      emailOnly pa e.From = .ok sender →
      poolSendExchange pa okTransport e
        = (none, .mail sender :: recips.map TransportEvent.rcpt
            ++ [.dataCmd, .write])) := by
  refine ⟨fun e b1 b2 x => rfl, topHeaders_no_bcc, ?_, ?_⟩
  · intro pa e h
    have hTo := addrList1_ok pa e.To (fun s hs => h s (by simp [hs]))
    have hCc := addrList1_ok pa e.Cc (fun s hs => h s (by simp [hs]))
    have hBcc := addrList1_ok pa e.Bcc (fun s hs => h s (by simp [hs]))
    simp [addressLists, hTo, hCc, hBcc]
  · intro pa e recips sender haddr hsender
    have hm : okTransport.mailRes sender = none := rfl
    have hd : okTransport.dataRes = none := rfl
    have hw : okTransport.writeRes = none := rfl
    have hc : okTransport.closeRes = none := rfl
    simp [poolSendExchange, haddr, hsender, hm, hd, hw, hc, rcptLoop_ok]

/-- A concrete instance of the consumed address-parsing capability for
witnesses and counterexamples: accepts exactly the strings containing an
`@` (64), taken whole as the bare address. -/
def demoParse (s : String) : Except String Addr :=
  if s.data.any (fun ch => ch.toNat == 64) then .ok (Addr.mk "" s)
  else .error "mail: missing @ in addr-spec"

/-- A message whose To, Cc and Bcc entries all parse under `demoParse`. -/
def envEmail : Email :=
  Email.mk "jd@example.com" ["a@x"] ["b@x"] ["c@x"] "S" (strBytes "t") [] [] [] []

/-- Witness for C4 at a concrete message: the envelope list is To, then Cc,
then Bcc, addresses only. -/
theorem bcc_excluded_and_envelope_order_witness :
    addressLists demoParse [envEmail.To, envEmail.Cc, envEmail.Bcc]
      = .ok ((envEmail.To ++ envEmail.Cc ++ envEmail.Bcc).map (addrOf demoParse)) :=
  bcc_excluded_and_envelope_order.2.2.1 demoParse envEmail
    (by
      intro s hs
      simp [envEmail] at hs
      rcases hs with rfl | rfl | rfl
      · exact ⟨Addr.mk "" "a@x", rfl⟩
      · exact ⟨Addr.mk "" "c@x", rfl⟩
      · exact ⟨Addr.mk "" "b@x", rfl⟩)

/-- C9 (amended): the pooled `Send` fails with the address-parse error
before any envelope exchange step (MAIL, RCPT, DATA, body write) when the
From or any To/Cc/Bcc entry is malformed; the plain `Email.Send` does so
only for a malformed From — its recipients are passed to `smtp.SendMail`
unparsed. -/
theorem address_errors_before_transport :
    (∀ (pa : String → Except String Addr) (tr : Transport) (e : Email) (m : String),
      addressLists pa [e.To, e.Cc, e.Bcc] = .error m →
      poolSendExchange pa tr e = (some (.otherError m), [])) ∧
    (∀ (pa : String → Except String Addr) (tr : Transport) (e : Email)
        (recips : List String) (m : String),
      addressLists pa [e.To, e.Cc, e.Bcc] = .ok recips →
      emailOnly pa e.From = .error m →
      poolSendExchange pa tr e = (some (.otherError m), [])) ∧
    (∀ (pa : String → Except String Addr) (r : Option String) (e : Email)
        (addr m : String),
      e.From ≠ "" → e.To ++ e.Cc ++ e.Bcc ≠ [] →
      pa e.From = .error m → emailSend pa r e addr = (some m, [])) := by
  refine ⟨?_, ?_, ?_⟩
  · intro pa tr e m h
    simp [poolSendExchange, h]
  · intro pa tr e recips m h1 h2
    simp [poolSendExchange, h1, h2]
  · intro pa r e addr m h1 h2 h3
    simp only [emailSend]
    rw [if_neg (by
      rintro (hf | ht)
      · exact h1 hf
      · exact h2 ht)]
    simp [h3]

/-- Witness for C9 at a concrete message: a malformed From fails the plain
send with the parse error and no `smtp.SendMail` call. -/
theorem address_errors_before_transport_witness :
    emailSend demoParse none
        (Email.mk "badfrom" ["a@x"] [] [] "S" (strBytes "t") [] [] [] [])
        "smtp.example.com:25"
      = (some "mail: missing @ in addr-spec", []) :=
  address_errors_before_transport.2.2 demoParse none
    (Email.mk "badfrom" ["a@x"] [] [] "S" (strBytes "t") [] [] [] [])
    "smtp.example.com:25" "mail: missing @ in addr-spec"
    (by decide) (by decide) rfl

/-- A message whose recipient is malformed but whose From parses. -/
def badRcptEmail : Email :=
  Email.mk "good@example.com" ["bad-address"] [] [] "S" (strBytes "t") [] [] [] []

/-- C9 counterexample: with a malformed recipient, the plain `Email.Send`
does not fail with an address-parse error and does start a transport
exchange — the raw recipient list goes straight into `smtp.SendMail`. -/
theorem malformed_recipient_still_reaches_transport :
    emailSend demoParse none badRcptEmail "smtp.example.com:25"
      = (none, [SendMailEvent.sendMail "smtp.example.com:25" "good@example.com"
          ["bad-address"]]) ∧
    (emailSend demoParse none badRcptEmail "smtp.example.com:25").2 ≠ [] := by
  constructor <;> decide
